import Mathlib

/-!
Verification of the NAS thumbnail generator (`thumbnail_generator.py`).

The Python script walks a directory tree, finds image and video files, and
maintains freedesktop-style `.thumbnails/{normal,large}` caches next to each
file.  This file gives a shallow embedding of its pure logic: the extension
tables, the pathlib suffix computation, the staleness check, the MD5 path
hashing, the per-file processing loop (as explicit state passing over an
abstract cache state), the recursive scanner over a tree model, and the
top-level run with its exit codes, together with theorems about them.
-/

namespace ThumbGen

/-- `IMAGE_EXTENSIONS` from the script (a Python set; order is irrelevant,
membership is what matters). -/
def IMAGE_EXTENSIONS : List String :=
  [".jpg", ".jpeg", ".png", ".gif", ".bmp", ".webp", ".tiff", ".tif"]

/-- `VIDEO_EXTENSIONS` from the script. -/
def VIDEO_EXTENSIONS : List String :=
  [".mp4", ".avi", ".mkv", ".mov", ".wmv", ".flv", ".webm", ".m4v", ".mpeg", ".mpg"]

/-- `THUMBNAIL_SIZES` from the script; a Python dict iterated in insertion
order, so we keep it as an association list. -/
def THUMBNAIL_SIZES : List (String × Nat) :=
  [("normal", 128), ("large", 256)]

/-- Index of the last `.` in a file name, mirroring Python `str.rfind`. -/
def rfindDot (cs : List Char) : Option Nat :=
  match (cs.reverse).findIdx? (fun c => c = '.') with
  | none => none
  | some j => some (cs.length - 1 - j)

/-- `PurePath.suffix` of a single path component: the part from the last dot
on, provided that dot is neither the first nor the last character. -/
def pathSuffix (name : String) : String :=
  let cs := name.data
  match rfindDot cs with
  | none => ""
  | some i => if 0 < i && i < cs.length - 1 then String.mk (cs.drop i) else ""

/-- `str.lower()` as a character map (ASCII case folding, which covers every
extension in the tables). -/
def toLowerStr (s : String) : String :=
  String.mk (s.data.map Char.toLower)

/-- `file_path.suffix.lower()` applied to a file name component. -/
def extensionOf (name : String) : String :=
  toLowerStr (pathSuffix name)

/-- Membership test `extension in IMAGE_EXTENSIONS or extension in
VIDEO_EXTENSIONS` shared by scanner and per-file processing. -/
def isMediaExtension (ext : String) : Bool :=
  IMAGE_EXTENSIONS.contains ext || VIDEO_EXTENSIONS.contains ext

/-- `should_generate_thumbnail(file_path, thumbnail_path, force)`.  The
thumbnail path's stat result is abstracted as `entry : Option Nat`: `none`
when `thumbnail_path.exists()` is false, `some m` when it exists with
modification time `m`; `srcMtime` is `file_path.stat().st_mtime`.  The body
mirrors the source line by line: force short-circuits, a missing entry is
stale, otherwise the strict mtime comparison decides. -/
def should_generate_thumbnail (srcMtime : Nat) (entry : Option Nat) (force : Bool) : Bool :=
  if force then true
  else
    match entry with
    | none => true
    | some thumbMtime => decide (srcMtime > thumbMtime)

/-! ### MD5 (`hashlib.md5`), modelled bit-for-bit over byte lists

The script names each thumbnail by the MD5 of the file URI; to state that as
more than an abstract function we embed the real MD5 algorithm: padding,
64-round compression on four 32-bit words, little-endian digest emission,
lowercase hex rendering.  All arithmetic is `Nat` reduced mod `2^32`. -/

namespace MD5

/-- Addition of 32-bit words. -/
def add32 (a b : Nat) : Nat := (a + b) % 4294967296

/-- Bitwise complement of a 32-bit word. -/
def not32 (a : Nat) : Nat := Nat.xor a 4294967295

/-- Left rotation of a 32-bit word by `s` places. -/
def rotl32 (x s : Nat) : Nat :=
  (Nat.lor (Nat.shiftLeft x s) (Nat.shiftRight x (32 - s))) % 4294967296

/-- The 64 sine-derived round constants of MD5. -/
def kTable : List Nat :=
  [3614090360, 3905402710, 606105819, 3250441966, 4118548399, 1200080426, 2821735955, 4249261313,
   1770035416, 2336552879, 4294925233, 2304563134, 1804603682, 4254626195, 2792965006, 1236535329,
   4129170786, 3225465664, 643717713, 3921069994, 3593408605, 38016083, 3634488961, 3889429448,
   568446438, 3275163606, 4107603335, 1163531501, 2850285829, 4243563512, 1735328473, 2368359562,
   4294588738, 2272392833, 1839030562, 4259657740, 2763975236, 1272893353, 4139469664, 3200236656,
   681279174, 3936430074, 3572445317, 76029189, 3654602809, 3873151461, 530742520, 3299628645,
   4096336452, 1126891415, 2878612391, 4237533241, 1700485571, 2399980690, 4293915773, 2240044497,
   1873313359, 4264355552, 2734768916, 1309151649, 4149444226, 3174756917, 718787259, 3951481745]

/-- The per-round left-rotation amounts of MD5. -/
def sTable : List Nat :=
  [7, 12, 17, 22, 7, 12, 17, 22, 7, 12, 17, 22, 7, 12, 17, 22,
   5, 9, 14, 20, 5, 9, 14, 20, 5, 9, 14, 20, 5, 9, 14, 20,
   4, 11, 16, 23, 4, 11, 16, 23, 4, 11, 16, 23, 4, 11, 16, 23,
   6, 10, 15, 21, 6, 10, 15, 21, 6, 10, 15, 21, 6, 10, 15, 21]

/-- A natural number as `n` little-endian bytes. -/
def leBytes (n v : Nat) : List Nat :=
  (List.range n).map (fun i => (Nat.shiftRight v (8 * i)) % 256)

/-- MD5 padding: a 0x80 byte, zeros to 56 mod 64, then the bit length as
eight little-endian bytes. -/
def pad (msg : List Nat) : List Nat :=
  msg ++ [128] ++ List.replicate ((119 - msg.length % 64) % 64) 0
      ++ leBytes 8 ((8 * msg.length) % 18446744073709551616)

/-- The `g`-th little-endian 32-bit word of a 64-byte chunk. -/
def word (chunk : List Nat) (g : Nat) : Nat :=
  chunk.getD (4 * g) 0 + 256 * chunk.getD (4 * g + 1) 0
    + 65536 * chunk.getD (4 * g + 2) 0 + 16777216 * chunk.getD (4 * g + 3) 0

/-- The MD5 state: four 32-bit words. -/
structure MDState where
  a : Nat
  b : Nat
  c : Nat
  d : Nat
deriving DecidableEq

/-- The initial MD5 state. -/
def initState : MDState :=
  ⟨1732584193, 4023233417, 2562383102, 271733878⟩

/-- The round mixing function, selected by round index. -/
def mixF (i b c d : Nat) : Nat :=
  if i < 16 then Nat.lor (Nat.land b c) (Nat.land (not32 b) d)
  else if i < 32 then Nat.lor (Nat.land d b) (Nat.land (not32 d) c)
  else if i < 48 then Nat.xor (Nat.xor b c) d
  else Nat.xor c (Nat.lor b (not32 d))

/-- The message-word index for round `i`. -/
def gIdx (i : Nat) : Nat :=
  if i < 16 then i
  else if i < 32 then (5 * i + 1) % 16
  else if i < 48 then (3 * i + 5) % 16
  else (7 * i) % 16

/-- One MD5 round on the state. -/
def round (chunk : List Nat) (st : MDState) (i : Nat) : MDState :=
  let f := add32 (add32 (add32 (mixF i st.b st.c st.d) st.a) (kTable.getD i 0))
    (word chunk (gIdx i))
  ⟨st.d, add32 st.b (rotl32 f (sTable.getD i 0)), st.b, st.c⟩

/-- Compression of one 64-byte chunk: 64 rounds then a feed-forward add. -/
def compress (st : MDState) (chunk : List Nat) : MDState :=
  let r := (List.range 64).foldl (round chunk) st
  ⟨add32 st.a r.a, add32 st.b r.b, add32 st.c r.c, add32 st.d r.d⟩

/-- Split a byte list into 64-byte chunks; structural recursion on a fuel
bound so the kernel can evaluate it (each step consumes at least one byte,
so `l.length` fuel always suffices). -/
def chunksAux : Nat → List Nat → List (List Nat)
  | 0, _ => []
  | _ + 1, [] => []
  | fuel + 1, x :: xs => (x :: xs).take 64 :: chunksAux fuel ((x :: xs).drop 64)

/-- Split a byte list into 64-byte chunks. -/
def chunksOf64 (l : List Nat) : List (List Nat) :=
  chunksAux l.length l

/-- The 16 digest bytes of a byte message. -/
def md5Bytes (msg : List Nat) : List Nat :=
  let st := (chunksOf64 (pad msg)).foldl compress initState
  leBytes 4 st.a ++ leBytes 4 st.b ++ leBytes 4 st.c ++ leBytes 4 st.d

/-- A lowercase hexadecimal digit. -/
def hexDigit (n : Nat) : Char :=
  if n < 10 then Char.ofNat (48 + n) else Char.ofNat (87 + n)

/-- A byte as two lowercase hexadecimal digits. -/
def byteHex (b : Nat) : List Char :=
  [hexDigit (b / 16), hexDigit (b % 16)]

/-- `hashlib.md5(...).hexdigest()`: the digest as a 32-character lowercase
hex string. -/
def md5Hex (msg : List Nat) : String :=
  String.mk (((md5Bytes msg).map byteHex).flatten)

end MD5

/-- UTF-8 encoding of one character (the model of `str.encode`). -/
def utf8EncodeChar (c : Char) : List Nat :=
  let n := c.toNat
  if n < 128 then [n]
  else if n < 2048 then [192 + n / 64, 128 + n % 64]
  else if n < 65536 then [224 + n / 4096, 128 + (n / 64) % 64, 128 + n % 64]
  else [240 + n / 262144, 128 + (n / 4096) % 64, 128 + (n / 64) % 64, 128 + n % 64]

/-- `uri.encode( )`: the UTF-8 bytes of a string. -/
def utf8Bytes (s : String) : List Nat :=
  (s.data.map utf8EncodeChar).flatten

/-- `get_file_uri`: `Path.resolve()` is an operating-system call, so the
canonicalisation it performs is passed in as `resolve`; the function then
prepends the `file://` scheme. -/
def get_file_uri (resolve : String → String) (file_path : String) : String :=
  "file://" ++ resolve file_path

/-- `get_thumbnail_filename`: MD5 of the UTF-8 bytes of the file URI,
rendered as lowercase hex, with `.png` appended. -/
def get_thumbnail_filename (resolve : String → String) (file_path : String) : String :=
  MD5.md5Hex (utf8Bytes (get_file_uri resolve file_path)) ++ ".png"

/-! ### Python substring containment (`'ok' in r`) -/

/-- `hay` begins with `needle`. -/
def strStarts : List Char → List Char → Bool
  | [], _ => true
  | a :: as, hay =>
      match hay with
      | [] => false
      | b :: bs => a = b && strStarts as bs

/-- `needle` occurs somewhere in the character list. -/
def strFindSub (needle : List Char) : List Char → Bool
  | [] => needle.isEmpty
  | b :: bs => strStarts needle (b :: bs) || strFindSub needle bs

/-- Python `needle in hay` on strings. -/
def pyIn (needle hay : String) : Bool :=
  strFindSub needle.data hay.data

/-! ### Per-file processing (`process_file`) over an abstract cache state

Filesystem reads and writes become explicit state passing on `CacheState`
(thumbnail path to modification time and content); renderer and `resolve`
behaviour comes from a `RunEnv`; the side effects the claims talk about
(mkdir, staleness check, render invocations, printed lines) are logged in
order in an `Effect` list. -/

/-- One observable side effect of a run. -/
inductive Effect where
  | mkdirEff (path : String)
  | staleCheck (src out : String)
  | renderImage (src out : String) (size : Nat)
  | renderVideo (src out : String) (size : Nat)
  | printLine (line : String)
deriving DecidableEq

/-- A discovered media file: containing directory, final name component, and
source modification time (`st_mtime`). -/
structure MediaFile where
  parent : String
  name : String
  mtime : Nat
deriving DecidableEq

/-- The full path of a media file. -/
def fullPath (f : MediaFile) : String :=
  f.parent ++ "/" ++ f.name

/-- The on-disk thumbnail cache: each thumbnail path maps to `none` (absent)
or `some (mtime, content)`. -/
structure CacheState where
  entry : String → Option (Nat × Nat)

/-- Overwrite one cache entry in place. -/
def writeEntry (st : CacheState) (p : String) (v : Nat × Nat) : CacheState :=
  ⟨fun q => if q = p then some v else st.entry q⟩

/-- The ambient world of a run: path canonicalisation, whether each render
attempt succeeds, the pixels a successful render writes, and the clock
stamped on written files. -/
structure RunEnv where
  resolve : String → String
  renderOk : String → String → Nat → Bool
  content : String → Nat
  now : Nat

/-- The `.thumbnails/<size_name>` directory next to a file, as built by
`create_thumbnail_dirs`. -/
def thumbnailDir (parent size_name : String) : String :=
  parent ++ "/.thumbnails/" ++ size_name

/-- The thumbnail path of one variant of a file. -/
def variantPath (env : RunEnv) (f : MediaFile) (size_name : String) : String :=
  thumbnailDir f.parent size_name ++ "/" ++ get_thumbnail_filename env.resolve (fullPath f)

/-- One iteration of the `for size_name, size in THUMBNAIL_SIZES.items()`
loop: check staleness; if fresh record `cached`, otherwise render (by
image/video kind), write the entry on success, and record `ok`/`failed`. -/
def processVariant (env : RunEnv) (f : MediaFile) (force : Bool) (isImage : Bool)
    (st : CacheState) (sv : String × Nat) : CacheState × String × List Effect :=
  let out := variantPath env f sv.1
  let checkEff := Effect.staleCheck (fullPath f) out
  if should_generate_thumbnail f.mtime ((st.entry out).map Prod.fst) force = false then
    (st, sv.1 ++ ":cached", [checkEff])
  else
    let ok := env.renderOk (fullPath f) out sv.2
    let st1 := if ok then writeEntry st out (env.now, env.content out) else st
    let renderEff := if isImage then Effect.renderImage (fullPath f) out sv.2
      else Effect.renderVideo (fullPath f) out sv.2
    (st1, sv.1 ++ ":" ++ (if ok then "ok" else "failed"), [checkEff, renderEff])

/-- The variant loop of `process_file` over the size table. -/
def processVariants (env : RunEnv) (f : MediaFile) (force : Bool) (isImage : Bool) :
    CacheState → List (String × Nat) → CacheState × List String × List Effect
  | st, [] => (st, [], [])
  | st, sv :: rest =>
    let one := processVariant env f force isImage st sv
    let more := processVariants env f force isImage one.1 rest
    (more.1, one.2.1 :: more.2.1, one.2.2 ++ more.2.2)

/-- The value returned by a unit of work, with the post state and effects. -/
structure ProcOutcome where
  state : CacheState
  filePath : String
  status : String
  details : String
  results : List String
  effects : List Effect

/-- `process_file(file_path, force)`: skip non-media extensions, create the
cache layout, hash the path once, run the variant loop, and classify the
outcome by whether any per-variant result string contains `"ok"`. -/
def process_file (env : RunEnv) (st : CacheState) (f : MediaFile) (force : Bool) :
    ProcOutcome :=
  let extension := extensionOf f.name
  if isMediaExtension extension = false then
    { state := st, filePath := fullPath f, status := "skipped", details := "unsupported",
      results := [], effects := [] }
  else
    let mkdirs := THUMBNAIL_SIZES.map (fun sv => Effect.mkdirEff (thumbnailDir f.parent sv.1))
    let run := processVariants env f force (IMAGE_EXTENSIONS.contains extension) st THUMBNAIL_SIZES
    let status := if run.2.1.any (fun r => pyIn "ok" r) then "success" else "failed"
    { state := run.1, filePath := fullPath f, status := status,
      details := String.intercalate "," run.2.1, results := run.2.1,
      effects := mkdirs ++ run.2.2 }

/-- The orchestrator's per-file dispatch over the discovered files, as
explicit sequential state passing. -/
def runFiles (env : RunEnv) (force : Bool) :
    CacheState → List MediaFile → CacheState × List ProcOutcome
  | st, [] => (st, [])
  | st, f :: fs =>
    let o := process_file env st f force
    let rest := runFiles env force o.state fs
    (rest.1, o :: rest.2)

/-- The sixteen lowercase hexadecimal digit characters. -/
def lowercaseHexChars : List Char :=
  "0123456789abcdef".data

/-- A render invocation among the logged effects. -/
def isRenderEff : Effect → Bool
  | .renderImage _ _ _ => true
  | .renderVideo _ _ _ => true
  | _ => false

/-- One thumbnail path is fresh with respect to a source modification time:
the entry exists and is at least as new. -/
def pathFresh (st : CacheState) (p : String) (mt : Nat) : Prop :=
  ∃ m c, st.entry p = some (m, c) ∧ mt ≤ m

/-- All variant entries of a file are fresh in a state. -/
def freshFor (env : RunEnv) (st : CacheState) (f : MediaFile) : Prop :=
  ∀ sv ∈ THUMBNAIL_SIZES, pathFresh st (variantPath env f sv.1) f.mtime

/-! ### The scanner (`find_media_files` over `os.walk`) on a tree model -/

/-- The default `exclude_dirs` set of `find_media_files`. -/
def DEFAULT_EXCLUDE : List String :=
  [".thumbnails", "@eaDir", ".DS_Store", "Thumbs.db"]

/-- A directory tree: the walk only looks at names and the dir/file split,
so that is all the model carries. -/
inductive FsTree where
  | file (name : String)
  | dir (name : String) (children : List FsTree)

mutual

/-- `find_media_files`: the `os.walk` traversal.  Each visited directory
contributes its media-extension files (root-relative component paths), then
descent continues into subdirectories, with names in `exclude` pruned
before descent exactly as `dirs[:] = [d for d in dirs if d not in
exclude_dirs]` does. -/
def find_media_files (exclude : List String) : FsTree → List (List String)
  | .file _ => []
  | .dir _ children =>
      children.filterMap (fun c =>
        match c with
        | .file n => if isMediaExtension (extensionOf n) then some [n] else none
        | .dir _ _ => none)
      ++ walkSubdirs exclude children

/-- Descent of the walk into the non-excluded subdirectories, in order. -/
def walkSubdirs (exclude : List String) : List FsTree → List (List String)
  | [] => []
  | c :: cs =>
      (match c with
       | .file _ => []
       | .dir n sub =>
           if exclude.contains n then []
           else (find_media_files exclude (.dir n sub)).map (fun p => n :: p))
      ++ walkSubdirs exclude cs

end

mutual

/-- Following directory components `ds` from a directory leads to a file
named `fname` (ignoring exclusions). -/
def hasFileAt : FsTree → List String → String → Bool
  | .file _, _, _ => false
  | .dir _ children, [], fname => anyFileNamed children fname
  | .dir _ children, d :: ds, fname => anyDirAt children d ds fname

/-- Some child is a file with the given name. -/
def anyFileNamed : List FsTree → String → Bool
  | [], _ => false
  | .file n :: cs, fname => n = fname || anyFileNamed cs fname
  | .dir _ _ :: cs, fname => anyFileNamed cs fname

/-- Some child is a directory named `d` through which `ds` reaches the
file. -/
def anyDirAt : List FsTree → String → List String → String → Bool
  | [], _, _, _ => false
  | .file _ :: cs, d, ds, fname => anyDirAt cs d ds fname
  | .dir n sub :: cs, d, ds, fname =>
      (n = d && hasFileAt (.dir n sub) ds fname) || anyDirAt cs d ds fname

end

/-! ### The top-level run (`main`) -/

/-- Parsed command-line flags (argument parsing itself is out of scope). -/
structure ArgsModel where
  force : Bool
  dryRun : Bool

/-- The state of the world `main` starts from: the root path, whether it
exists and is a directory, its contents when it is, and each file's
modification time. -/
structure WorldModel where
  rootPath : String
  rootExists : Bool
  rootIsDir : Bool
  tree : FsTree
  mtimeOf : String → Nat

/-- A root-relative component path as a full path string. -/
def joinPath (root : String) (p : List String) : String :=
  root ++ "/" ++ String.intercalate "/" p

/-- The `MediaFile` a scanned component path denotes. -/
def toMediaFile (w : WorldModel) (p : List String) : MediaFile :=
  { parent := String.intercalate "/" (w.rootPath :: p.dropLast),
    name := p.getLastD "",
    mtime := w.mtimeOf (joinPath w.rootPath p) }

/-- `main`: validate the root (exit 1 before any scan if missing or not a
directory), scan, short-circuit on `--dry-run` printing each candidate and
exiting 0, otherwise process every file and exit 0 exactly when no file's
outcome was `failed`.  The thread pool is embedded sequentially: the failed
count `main` compares with zero is order-independent. -/
def main (env : RunEnv) (w : WorldModel) (args : ArgsModel) (st : CacheState) :
    Nat × CacheState × List Effect :=
  if w.rootExists = false then (1, st, [])
  else if w.rootIsDir = false then (1, st, [])
  else
    let media := find_media_files DEFAULT_EXCLUDE w.tree
    if args.dryRun then
      (0, st, media.map (fun p => Effect.printLine ("Would process: " ++ joinPath w.rootPath p)))
    else
      let run := runFiles env args.force st (media.map (toMediaFile w))
      let failed := run.2.countP (fun o => o.status = "failed")
      (if failed = 0 then 0 else 1, run.1, (run.2.map ProcOutcome.effects).flatten)

/-! ### Renderer boundaries (`generate_image_thumbnail`,
`generate_video_thumbnail`) with explicit exceptions

Collaborator calls are modelled as `Except`-valued results; the renderer
functions return plain `Bool`, which is the embedded form of "never raises
past its own boundary". -/

/-- The exception kinds the renderers' collaborators can raise. -/
inductive PyExc where
  | decodeError (msg : String)
  | unsupportedFormat (msg : String)
  | writeError (msg : String)
  | timeoutExpired
  | fileNotFound
  | other (msg : String)
deriving DecidableEq

/-- The image-library steps inside the `with Image.open(...)` body, each of
which may raise. -/
structure ImageLibEnv where
  openImage : Except PyExc Unit
  convertImage : Except PyExc Unit
  thumbnailImage : Except PyExc Unit
  saveImage : Except PyExc Unit

/-- The `try` body of `generate_image_thumbnail`: open, flatten modes,
resize, save — stopping at the first raised exception. -/
def generate_image_thumbnail_body (lib : ImageLibEnv) : Except PyExc Unit := do
  let _ ← lib.openImage
  let _ ← lib.convertImage
  let _ ← lib.thumbnailImage
  lib.saveImage

/-- `generate_image_thumbnail`: the body under `try`, with
`except Exception` turning every raised exception into `False` (after a
logged diagnostic). -/
def generate_image_thumbnail (lib : ImageLibEnv) : Bool :=
  match generate_image_thumbnail_body lib with
  | .ok _ => true
  | .error _ => false

/-- What `subprocess.run` returned when it did not raise. -/
structure ProcResult where
  returncode : Int

/-- The external video tool invocation, which may raise. -/
structure VideoToolEnv where
  runProc : Except PyExc ProcResult

/-- `generate_video_thumbnail`: success is `returncode == 0`;
`TimeoutExpired`, `FileNotFoundError` and any other `Exception` each have a
handler returning `False`. -/
def generate_video_thumbnail (vid : VideoToolEnv) : Bool :=
  match vid.runProc with
  | .ok res => decide (res.returncode = 0)
  | .error .timeoutExpired => false
  | .error .fileNotFound => false
  | .error _ => false

/-! ### The per-file unit of work with a failing filesystem (C8)

`process_file` itself has no `try`: a stat or mkdir failure raises out of
it, and `future.result()` re-raises it inside `main`'s collection loop.
This model makes those raises explicit as `Except`. -/

/-- Filesystem operations that can fail, plus the rest of the ambient
world. -/
structure FsOpsEnv where
  mkdirRes : String → Except PyExc Unit
  statRes : String → Except PyExc Nat
  existsRes : String → Bool
  renderOk : String → String → Nat → Bool
  resolve : String → String

/-- The variant path computed through `FsOpsEnv.resolve`. -/
def variantPathFs (fs : FsOpsEnv) (f : MediaFile) (size_name : String) : String :=
  thumbnailDir f.parent size_name ++ "/" ++ get_thumbnail_filename fs.resolve (fullPath f)

/-- `create_thumbnail_dirs`: one mkdir per variant directory; the first
raising mkdir aborts the loop and the exception propagates. -/
def mkdirAll (fs : FsOpsEnv) (directory : String) : List (String × Nat) → Except PyExc Unit
  | [] => .ok ()
  | sv :: rest => do
      let _ ← fs.mkdirRes (thumbnailDir directory sv.1)
      mkdirAll fs directory rest

/-- `should_generate_thumbnail` with raising stat calls. -/
def should_generate_exc (fs : FsOpsEnv) (filePath thumbPath : String) (force : Bool) :
    Except PyExc Bool :=
  if force then .ok true
  else if fs.existsRes thumbPath = false then .ok true
  else do
    let srcM ← fs.statRes filePath
    let thM ← fs.statRes thumbPath
    .ok (decide (srcM > thM))

/-- The variant loop with raising filesystem calls. -/
def processVariantsExc (fs : FsOpsEnv) (f : MediaFile) (force : Bool) :
    List (String × Nat) → Except PyExc (List String)
  | [] => .ok []
  | sv :: rest => do
      let gen ← should_generate_exc fs (fullPath f) (variantPathFs fs f sv.1) force
      let r := if gen = false then sv.1 ++ ":cached"
        else sv.1 ++ ":" ++
          (if fs.renderOk (fullPath f) (variantPathFs fs f sv.1) sv.2 then "ok" else "failed")
      let more ← processVariantsExc fs f force rest
      .ok (r :: more)

/-- `process_file` in the failing-filesystem model: no handler anywhere, so
any raised exception becomes an `Except.error` of the whole unit of work
instead of an outcome record. -/
def process_file_exc (fs : FsOpsEnv) (f : MediaFile) (force : Bool) :
    Except PyExc (String × String) :=
  if isMediaExtension (extensionOf f.name) = false then .ok ("skipped", "unsupported")
  else do
    let _ ← mkdirAll fs f.parent THUMBNAIL_SIZES
    let results ← processVariantsExc fs f force THUMBNAIL_SIZES
    .ok (if results.any (fun r => pyIn "ok" r) then "success" else "failed",
      String.intercalate "," results)

/-- `main`'s collection loop: `future.result()` re-raises the first stored
exception, so one failing unit of work aborts the aggregation of the whole
run; otherwise it tallies (successful, failed). -/
def collectResults : List (Except PyExc (String × String)) → Except PyExc (Nat × Nat)
  | [] => .ok (0, 0)
  | r :: rest => do
      let o ← r
      let counts ← collectResults rest
      .ok (if o.1 = "success" then counts.1 + 1 else counts.1,
        if o.1 = "failed" then counts.2 + 1 else counts.2)

/-! ## Theorems -/

theorem shouldGen_true_iff (srcMtime : Nat) (entry : Option Nat) (force : Bool) :
    should_generate_thumbnail srcMtime entry force = true ↔
      force = true ∨ entry = none ∨ ∃ m, entry = some m ∧ m < srcMtime := by
  cases force <;> rcases entry with _ | m <;>
    simp [should_generate_thumbnail]

theorem shouldGen_false_iff (srcMtime : Nat) (entry : Option Nat) (force : Bool) :
    should_generate_thumbnail srcMtime entry force = false ↔
      force = false ∧ ∃ m, entry = some m ∧ srcMtime ≤ m := by
  cases force <;> rcases entry with _ | m <;>
    simp [should_generate_thumbnail]

/-- C1: the staleness check returns true iff force is set, or the entry does
not exist, or the source is strictly newer than the entry; equivalently it
returns false exactly when force is unset and the entry exists with
modification time at least the source's. -/
theorem should_generate_thumbnail_iff (srcMtime : Nat) (entry : Option Nat) (force : Bool) :
    (should_generate_thumbnail srcMtime entry force = true ↔
      force = true ∨ entry = none ∨ ∃ m, entry = some m ∧ m < srcMtime) ∧
    (should_generate_thumbnail srcMtime entry force = false ↔
      force = false ∧ ∃ m, entry = some m ∧ srcMtime ≤ m) :=
  ⟨shouldGen_true_iff srcMtime entry force, shouldGen_false_iff srcMtime entry force⟩

/-! ### Digest shape lemmas and the path-hashing claim -/

theorem leBytes_length (n v : Nat) : (MD5.leBytes n v).length = n := by
  simp [MD5.leBytes]

theorem leBytes_mem_lt (n v : Nat) : ∀ b ∈ MD5.leBytes n v, b < 256 := by
  intro b hb
  simp only [MD5.leBytes, List.mem_map, List.mem_range] at hb
  obtain ⟨i, _, rfl⟩ := hb
  exact Nat.mod_lt _ (by norm_num)

theorem md5Bytes_length (m : List Nat) : (MD5.md5Bytes m).length = 16 := by
  simp [MD5.md5Bytes, leBytes_length]

theorem md5Bytes_mem_lt (m : List Nat) : ∀ b ∈ MD5.md5Bytes m, b < 256 := by
  intro b hb
  simp only [MD5.md5Bytes, List.mem_append] at hb
  rcases hb with ((h | h) | h) | h <;> exact leBytes_mem_lt _ _ _ h

theorem hexDigit_mem (n : Nat) (h : n < 16) : MD5.hexDigit n ∈ lowercaseHexChars := by
  interval_cases n <;> decide

theorem byteHex_mem (b : Nat) (h : b < 256) :
    ∀ c ∈ MD5.byteHex b, c ∈ lowercaseHexChars := by
  intro c hc
  simp only [MD5.byteHex, List.mem_cons, List.not_mem_nil, or_false] at hc
  rcases hc with rfl | rfl
  · exact hexDigit_mem _ (by omega)
  · exact hexDigit_mem _ (Nat.mod_lt _ (by norm_num))

theorem byteHex_flatten_length (l : List Nat) :
    ((l.map MD5.byteHex).flatten).length = 2 * l.length := by
  induction l with
  | nil => simp
  | cons b bs ih => simp [MD5.byteHex, ih]; ring

theorem md5Hex_length (m : List Nat) : (MD5.md5Hex m).length = 32 := by
  have h : (MD5.md5Hex m).length = ((MD5.md5Bytes m).map MD5.byteHex).flatten.length := rfl
  rw [h, byteHex_flatten_length, md5Bytes_length]

theorem md5Hex_mem_hex (m : List Nat) :
    ∀ c ∈ (MD5.md5Hex m).data, c ∈ lowercaseHexChars := by
  intro c hc
  simp only [MD5.md5Hex, List.mem_flatten, List.mem_map] at hc
  obtain ⟨sub, ⟨b, hb, rfl⟩, hcs⟩ := hc
  exact byteHex_mem b (md5Bytes_mem_lt m b hb) c hcs

set_option maxRecDepth 10000 in
/-- Test vector: the MD5 of the empty message. -/
theorem md5Hex_empty_vector : MD5.md5Hex [] = "d41d8cd98f00b204e9800998ecf8427e" := by
  decide

set_option maxRecDepth 10000 in
/-- Test vector: the MD5 of `"abc"` (RFC 1321 appendix). -/
theorem md5Hex_abc_vector :
    MD5.md5Hex (utf8Bytes "abc") = "900150983cd24fb0d6963f7d28e17f72" := by
  decide

set_option maxRecDepth 10000 in
/-- Test vector: the thumbnail name of `/a/b/c.jpg`, matching the digest
`md5sum` computes for `file:///a/b/c.jpg`. -/
theorem thumbnail_filename_vector :
    get_thumbnail_filename id "/a/b/c.jpg" = "6f4da7581a5a0f9b2b38166d3d9cc7a0.png" := by
  decide

/-- C4: the thumbnail filename is the lowercase hex MD5 digest of the UTF-8
bytes of `file://` + the resolved path, with `.png` appended; it is
deterministic and identical for two references that resolve to the same
path; the digest part is 32 lowercase hex characters; and every variant of
a file uses one shared filename, only the variant directory differing. -/
theorem get_thumbnail_filename_spec (resolve : String → String) (p q : String)
    (env : RunEnv) (f : MediaFile) (hres : resolve p = resolve q) :
    get_thumbnail_filename resolve p
      = MD5.md5Hex (utf8Bytes ("file://" ++ resolve p)) ++ ".png"
    ∧ get_thumbnail_filename resolve p = get_thumbnail_filename resolve q
    ∧ (MD5.md5Hex (utf8Bytes ("file://" ++ resolve p))).length = 32
    ∧ (∀ c ∈ (MD5.md5Hex (utf8Bytes ("file://" ++ resolve p))).data, c ∈ lowercaseHexChars)
    ∧ ∃ fname, ∀ sn, variantPath env f sn = thumbnailDir f.parent sn ++ "/" ++ fname := by
  refine ⟨rfl, ?_, md5Hex_length _, md5Hex_mem_hex _, ?_⟩
  · simp [get_thumbnail_filename, get_file_uri, hres]
  · exact ⟨get_thumbnail_filename env.resolve (fullPath f), fun sn => rfl⟩

set_option maxRecDepth 10000 in
/-- Witness for C4 at a concrete input: `c.jpg` and `./c.jpg` both resolving
to `/a/b/c.jpg` get the same concrete digest filename. -/
theorem get_thumbnail_filename_spec_witness :
    (fun _ : String => "/a/b/c.jpg") "c.jpg" = (fun _ : String => "/a/b/c.jpg") "./c.jpg"
    ∧ get_thumbnail_filename (fun _ : String => "/a/b/c.jpg") "c.jpg"
        = get_thumbnail_filename (fun _ : String => "/a/b/c.jpg") "./c.jpg" := by
  refine ⟨rfl, ?_⟩
  exact (get_thumbnail_filename_spec (fun _ : String => "/a/b/c.jpg") "c.jpg" "./c.jpg"
    ⟨id, fun _ _ _ => true, fun _ => 0, 0⟩ ⟨"/a/b", "c.jpg", 0⟩ rfl).2.1

/-! ### Outcome classification (`status = success iff some result has "ok"`) -/

theorem statusExpr_success_iff (rs : List String) :
    ((if rs.any (fun r => pyIn "ok" r) then "success" else "failed") = "success")
      ↔ ∃ r ∈ rs, pyIn "ok" r = true := by
  cases h : rs.any (fun r => pyIn "ok" r)
  · simp only [h, if_false, Bool.false_eq_true]
    constructor
    · intro hc; exact absurd hc (by decide)
    · intro hc
      obtain ⟨r, hr, hok⟩ := hc
      have hh : rs.any (fun r => pyIn "ok" r) = true := List.any_eq_true.mpr ⟨r, hr, hok⟩
      rw [h] at hh; exact absurd hh (by decide)
  · simp only [h, if_true]
    exact iff_of_true trivial (List.any_eq_true.mp h)

theorem statusExpr_cases (rs : List String) :
    (if rs.any (fun r => pyIn "ok" r) then "success" else "failed") = "success"
    ∨ (if rs.any (fun r => pyIn "ok" r) then "success" else "failed") = "failed" := by
  cases h : rs.any (fun r => pyIn "ok" r) <;> simp [h]

/-- C2: for a media file, the per-file outcome is `success` exactly when some
per-variant result string contains the substring `"ok"` and `failed` in
every other case; in particular when force is unset and both variants are
already fresh, the results are exactly `normal:cached, large:cached` and the
file is classified `failed` even though nothing went wrong. -/
theorem process_file_status_iff (env : RunEnv) (st : CacheState) (f : MediaFile) (force : Bool)
    (hmedia : isMediaExtension (extensionOf f.name) = true) :
    ((process_file env st f force).status = "success"
      ↔ ∃ r ∈ (process_file env st f force).results, pyIn "ok" r = true)
    ∧ ((process_file env st f force).status = "success"
        ∨ (process_file env st f force).status = "failed")
    ∧ (force = false →
        (∀ sv ∈ THUMBNAIL_SIZES,
          ∃ m c, st.entry (variantPath env f sv.1) = some (m, c) ∧ f.mtime ≤ m) →
        (process_file env st f force).results = ["normal:cached", "large:cached"]
        ∧ (process_file env st f force).status = "failed") := by
  refine ⟨?_, ?_, ?_⟩
  · simp only [process_file, hmedia, Bool.true_eq_false, if_false]
    exact statusExpr_success_iff _
  · simp only [process_file, hmedia, Bool.true_eq_false, if_false]
    exact statusExpr_cases _
  · intro hforce hfresh
    obtain ⟨m1, c1, h1, hm1⟩ := hfresh ("normal", 128) (by simp [THUMBNAIL_SIZES])
    obtain ⟨m2, c2, h2, hm2⟩ := hfresh ("large", 256) (by simp [THUMBNAIL_SIZES])
    have hs1 : should_generate_thumbnail f.mtime
        ((st.entry (variantPath env f "normal")).map Prod.fst) false = false := by
      rw [h1]
      simp [should_generate_thumbnail, Nat.not_lt.mpr hm1]
    have hs2 : should_generate_thumbnail f.mtime
        ((st.entry (variantPath env f "large")).map Prod.fst) false = false := by
      rw [h2]
      simp [should_generate_thumbnail, Nat.not_lt.mpr hm2]
    subst hforce
    simp only [process_file, hmedia, Bool.true_eq_false, if_false, THUMBNAIL_SIZES,
      processVariants, processVariant, hs1, hs2, if_true]
    refine ⟨rfl, by decide⟩

/-- Witness for C2: a concrete `a.jpg` whose two variant entries are both
fresh (entry mtime 7, source mtime 5, no force) comes out all-cached and is
classified `failed`. -/
theorem process_file_status_iff_witness :
    isMediaExtension (extensionOf (MediaFile.mk "/r" "a.jpg" 5).name) = true
    ∧ (process_file ⟨id, fun _ _ _ => true, fun _ => 0, 10⟩ ⟨fun _ => some (7, 0)⟩
        ⟨"/r", "a.jpg", 5⟩ false).results = ["normal:cached", "large:cached"]
    ∧ (process_file ⟨id, fun _ _ _ => true, fun _ => 0, 10⟩ ⟨fun _ => some (7, 0)⟩
        ⟨"/r", "a.jpg", 5⟩ false).status = "failed" := by
  have hm : isMediaExtension (extensionOf (MediaFile.mk "/r" "a.jpg" 5).name) = true := by decide
  have h := (process_file_status_iff ⟨id, fun _ _ _ => true, fun _ => 0, 10⟩
    ⟨fun _ => some (7, 0)⟩ ⟨"/r", "a.jpg", 5⟩ false hm).2.2 rfl
    (fun sv _ => ⟨7, 0, rfl, by norm_num⟩)
  exact ⟨hm, h.1, h.2⟩

/-! ### Idempotence of a repeated run (C3) -/

theorem processVariant_entry_cases (env : RunEnv) (f : MediaFile) (force isImage : Bool)
    (st : CacheState) (sv : String × Nat) (p : String) :
    (processVariant env f force isImage st sv).1.entry p = st.entry p
    ∨ ∃ c, (processVariant env f force isImage st sv).1.entry p = some (env.now, c) := by
  by_cases hs : should_generate_thumbnail f.mtime
      ((st.entry (variantPath env f sv.1)).map Prod.fst) force = false
  · left; simp [processVariant, hs]
  · cases hok : env.renderOk (fullPath f) (variantPath env f sv.1) sv.2
    · left; simp [processVariant, hs, hok]
    · by_cases hp : p = variantPath env f sv.1
      · right
        refine ⟨env.content (variantPath env f sv.1), ?_⟩
        simp [processVariant, hs, hok, writeEntry, hp]
      · left; simp [processVariant, hs, hok, writeEntry, hp]

theorem processVariants_entry_cases (env : RunEnv) (f : MediaFile) (force isImage : Bool)
    (st : CacheState) (svs : List (String × Nat)) (p : String) :
    (processVariants env f force isImage st svs).1.entry p = st.entry p
    ∨ ∃ c, (processVariants env f force isImage st svs).1.entry p = some (env.now, c) := by
  induction svs generalizing st with
  | nil => left; rfl
  | cons sv rest ih =>
    rcases ih (processVariant env f force isImage st sv).1 with h | h
    · rw [show (processVariants env f force isImage st (sv :: rest)).1
          = (processVariants env f force isImage (processVariant env f force isImage st sv).1
            rest).1 from rfl, h]
      exact processVariant_entry_cases env f force isImage st sv p
    · right
      exact h

theorem process_file_skip_state (env : RunEnv) (st : CacheState) (f : MediaFile) (force : Bool)
    (hm : isMediaExtension (extensionOf f.name) = false) :
    (process_file env st f force).state = st := by
  simp only [process_file, hm, if_true]

theorem process_file_media_state (env : RunEnv) (st : CacheState) (f : MediaFile) (force : Bool)
    (hm : isMediaExtension (extensionOf f.name) = true) :
    (process_file env st f force).state
      = (processVariants env f force (IMAGE_EXTENSIONS.contains (extensionOf f.name))
          st THUMBNAIL_SIZES).1 := by
  simp only [process_file, hm, Bool.true_eq_false, if_false]

theorem process_file_entry_cases (env : RunEnv) (st : CacheState) (f : MediaFile)
    (force : Bool) (p : String) :
    (process_file env st f force).state.entry p = st.entry p
    ∨ ∃ c, (process_file env st f force).state.entry p = some (env.now, c) := by
  cases hm : isMediaExtension (extensionOf f.name)
  · left; rw [process_file_skip_state env st f force hm]
  · rw [process_file_media_state env st f force hm]
    exact processVariants_entry_cases env f force _ st THUMBNAIL_SIZES p

theorem runFiles_entry_cases (env : RunEnv) (force : Bool) (st : CacheState)
    (files : List MediaFile) (p : String) :
    (runFiles env force st files).1.entry p = st.entry p
    ∨ ∃ c, (runFiles env force st files).1.entry p = some (env.now, c) := by
  induction files generalizing st with
  | nil => left; rfl
  | cons f fs ih =>
    rcases ih (process_file env st f force).state with h | h
    · rw [show (runFiles env force st (f :: fs)).1
          = (runFiles env force (process_file env st f force).state fs).1 from rfl, h]
      exact process_file_entry_cases env st f force p
    · right
      exact h

theorem pathFresh_of_entry_cases {env : RunEnv} {st st2 : CacheState} {p : String} {mt : Nat}
    (hcase : st2.entry p = st.entry p ∨ ∃ c, st2.entry p = some (env.now, c))
    (hmt : mt ≤ env.now) (h : pathFresh st p mt) : pathFresh st2 p mt := by
  obtain ⟨m, c, hm, hle⟩ := h
  rcases hcase with he | ⟨c2, he⟩
  · exact ⟨m, c, he.trans hm, hle⟩
  · exact ⟨env.now, c2, he, hmt⟩

theorem processVariant_establishes (env : RunEnv) (f : MediaFile) (force isImage : Bool)
    (st : CacheState) (sv : String × Nat)
    (hrender : ∀ s o n, env.renderOk s o n = true) (hnow : f.mtime ≤ env.now) :
    pathFresh (processVariant env f force isImage st sv).1 (variantPath env f sv.1) f.mtime := by
  by_cases hs : should_generate_thumbnail f.mtime
      ((st.entry (variantPath env f sv.1)).map Prod.fst) force = false
  · obtain ⟨-, m, hm, hle⟩ := (shouldGen_false_iff f.mtime
      ((st.entry (variantPath env f sv.1)).map Prod.fst) force).mp hs
    obtain ⟨⟨m0, c0⟩, hat, hfst⟩ := Option.map_eq_some'.mp hm
    have hat2 : st.entry (variantPath env f sv.1) = some (m, c0) := by
      rw [hat]
      simp only [Option.some.injEq, Prod.mk.injEq, and_true]
      exact hfst
    have hs3 : should_generate_thumbnail f.mtime (some m) force = false := by
      rw [hat2] at hs; simpa using hs
    refine ⟨m, c0, ?_, hle⟩
    simp [processVariant, hat2, hs3]
  · refine ⟨env.now, env.content (variantPath env f sv.1), ?_, hnow⟩
    simp [processVariant, hs, hrender, writeEntry]

theorem processVariants_establishes (env : RunEnv) (f : MediaFile) (force isImage : Bool)
    (st : CacheState) (svs : List (String × Nat))
    (hrender : ∀ s o n, env.renderOk s o n = true) (hnow : f.mtime ≤ env.now) :
    ∀ sv ∈ svs, pathFresh (processVariants env f force isImage st svs).1
      (variantPath env f sv.1) f.mtime := by
  induction svs generalizing st with
  | nil => intro sv h; exact absurd h (List.not_mem_nil sv)
  | cons sv0 rest ih =>
    intro sv hsv
    rcases List.mem_cons.mp hsv with rfl | hmem
    · exact pathFresh_of_entry_cases
        (processVariants_entry_cases env f force isImage _ rest _) hnow
        (processVariant_establishes env f force isImage st sv hrender hnow)
    · exact ih (processVariant env f force isImage st sv0).1 sv hmem

theorem process_file_establishes (env : RunEnv) (st : CacheState) (f : MediaFile) (force : Bool)
    (hmedia : isMediaExtension (extensionOf f.name) = true)
    (hrender : ∀ s o n, env.renderOk s o n = true) (hnow : f.mtime ≤ env.now) :
    freshFor env (process_file env st f force).state f := by
  intro sv hsv
  rw [process_file_media_state env st f force hmedia]
  exact processVariants_establishes env f force _ st THUMBNAIL_SIZES hrender hnow sv hsv

theorem freshFor_preserved_process_file (env : RunEnv) (st : CacheState) (f g : MediaFile)
    (force : Bool) (hnow : g.mtime ≤ env.now) (h : freshFor env st g) :
    freshFor env (process_file env st f force).state g := by
  intro sv hsv
  exact pathFresh_of_entry_cases (process_file_entry_cases env st f force _) hnow (h sv hsv)

theorem runFiles_establishes (env : RunEnv) (force : Bool) (st : CacheState)
    (files : List MediaFile)
    (hmedia : ∀ f ∈ files, isMediaExtension (extensionOf f.name) = true)
    (hrender : ∀ s o n, env.renderOk s o n = true)
    (hnow : ∀ f ∈ files, f.mtime ≤ env.now) :
    ∀ f ∈ files, freshFor env (runFiles env force st files).1 f := by
  induction files generalizing st with
  | nil => intro f h; exact absurd h (List.not_mem_nil f)
  | cons f0 fs ih =>
    intro f hf
    rcases List.mem_cons.mp hf with rfl | hmem
    · intro sv hsv
      exact pathFresh_of_entry_cases (runFiles_entry_cases env force _ fs _)
        (hnow f (List.mem_cons_self f fs))
        (process_file_establishes env st f force (hmedia f (List.mem_cons_self f fs)) hrender
          (hnow f (List.mem_cons_self f fs)) sv hsv)
    · exact ih (process_file env st f0 force).state
        (fun f hf => hmedia f (List.mem_cons_of_mem f0 hf))
        (fun f hf => hnow f (List.mem_cons_of_mem f0 hf)) f hmem

theorem processVariant_fresh_id (env : RunEnv) (f : MediaFile) (isImage : Bool)
    (st : CacheState) (sv : String × Nat)
    (h : pathFresh st (variantPath env f sv.1) f.mtime) :
    processVariant env f false isImage st sv
      = (st, sv.1 ++ ":cached", [Effect.staleCheck (fullPath f) (variantPath env f sv.1)]) := by
  obtain ⟨m, c, hm, hle⟩ := h
  have hs : should_generate_thumbnail f.mtime
      ((st.entry (variantPath env f sv.1)).map Prod.fst) false = false := by
    rw [hm]
    simp [should_generate_thumbnail, Nat.not_lt.mpr hle]
  simp [processVariant, hs]

theorem processVariants_fresh_id (env : RunEnv) (f : MediaFile) (isImage : Bool)
    (st : CacheState) (svs : List (String × Nat))
    (h : ∀ sv ∈ svs, pathFresh st (variantPath env f sv.1) f.mtime) :
    processVariants env f false isImage st svs
      = (st, svs.map (fun sv => sv.1 ++ ":cached"),
          svs.map (fun sv => Effect.staleCheck (fullPath f) (variantPath env f sv.1))) := by
  induction svs with
  | nil => rfl
  | cons sv rest ih =>
    have h1 := processVariant_fresh_id env f isImage st sv (h sv (List.mem_cons_self sv rest))
    have h2 := ih (fun sv2 hsv2 => h sv2 (List.mem_cons_of_mem sv hsv2))
    simp only [processVariants, h1, h2, List.map_cons, List.singleton_append]

theorem process_file_fresh_id (env : RunEnv) (st : CacheState) (f : MediaFile)
    (hmedia : isMediaExtension (extensionOf f.name) = true)
    (h : freshFor env st f) :
    (process_file env st f false).state = st
    ∧ (process_file env st f false).results = ["normal:cached", "large:cached"]
    ∧ (process_file env st f false).status = "failed"
    ∧ ∀ e ∈ (process_file env st f false).effects, isRenderEff e = false := by
  have hv := processVariants_fresh_id env f (IMAGE_EXTENSIONS.contains (extensionOf f.name))
    st THUMBNAIL_SIZES h
  have hstate : (process_file env st f false).state = st := by
    rw [process_file_media_state env st f false hmedia, hv]
  have hres : (process_file env st f false).results
      = THUMBNAIL_SIZES.map (fun sv => sv.1 ++ ":cached") := by
    simp only [process_file, hmedia, Bool.true_eq_false, if_false, hv]
  have hstat : (process_file env st f false).status = "failed" := by
    simp only [process_file, hmedia, Bool.true_eq_false, if_false, hv]
    decide
  have heff : (process_file env st f false).effects
      = THUMBNAIL_SIZES.map (fun sv => Effect.mkdirEff (thumbnailDir f.parent sv.1))
        ++ THUMBNAIL_SIZES.map (fun sv => Effect.staleCheck (fullPath f) (variantPath env f sv.1)) := by
    simp only [process_file, hmedia, Bool.true_eq_false, if_false, hv]
  refine ⟨hstate, by rw [hres]; rfl, hstat, ?_⟩
  intro e he
  rw [heff] at he
  simp only [THUMBNAIL_SIZES, List.map_cons, List.map_nil, List.mem_append,
    List.mem_cons, List.not_mem_nil, or_false] at he
  rcases he with (rfl | rfl) | (rfl | rfl) <;> rfl

/-- C3: running the orchestrator a second time over the same files, with
force absent and nothing changed since a completed first run (every render
succeeded, and the run's clock is at or after every source mtime), leaves
every cache entry — modification time and content — exactly as the first
run left it, records every variant as `cached` (each staleness check
returns false), and never invokes the renderer. -/
theorem runFiles_idempotent (env : RunEnv) (st : CacheState) (files : List MediaFile)
    (hmedia : ∀ f ∈ files, isMediaExtension (extensionOf f.name) = true)
    (hrender : ∀ s o n, env.renderOk s o n = true)
    (hnow : ∀ f ∈ files, f.mtime ≤ env.now) :
    (runFiles env false (runFiles env false st files).1 files).1
      = (runFiles env false st files).1
    ∧ (∀ p, (runFiles env false (runFiles env false st files).1 files).1.entry p
        = (runFiles env false st files).1.entry p)
    ∧ ∀ o ∈ (runFiles env false (runFiles env false st files).1 files).2,
        o.results = ["normal:cached", "large:cached"]
        ∧ o.status = "failed"
        ∧ ∀ e ∈ o.effects, isRenderEff e = false := by
  have hfresh := runFiles_establishes env false st files hmedia hrender hnow
  have key : ∀ (fs : List MediaFile) (st1 : CacheState),
      (∀ f ∈ fs, isMediaExtension (extensionOf f.name) = true) →
      (∀ f ∈ fs, freshFor env st1 f) →
      (runFiles env false st1 fs).1 = st1
      ∧ ∀ o ∈ (runFiles env false st1 fs).2,
          o.results = ["normal:cached", "large:cached"]
          ∧ o.status = "failed"
          ∧ ∀ e ∈ o.effects, isRenderEff e = false := by
    intro fs
    induction fs with
    | nil => intro st1 _ _; exact ⟨rfl, fun o ho => absurd ho (List.not_mem_nil o)⟩
    | cons f0 rest ih =>
      intro st1 hm hf
      have h0 := process_file_fresh_id env st1 f0 (hm f0 (List.mem_cons_self f0 rest))
        (hf f0 (List.mem_cons_self f0 rest))
      have hrec := ih (process_file env st1 f0 false).state
        (fun f hmem => hm f (List.mem_cons_of_mem f0 hmem))
        (fun f hmem => by rw [h0.1]; exact hf f (List.mem_cons_of_mem f0 hmem))
      constructor
      · rw [show (runFiles env false st1 (f0 :: rest)).1
            = (runFiles env false (process_file env st1 f0 false).state rest).1 from rfl,
          hrec.1, h0.1]
      · intro o ho
        rcases List.mem_cons.mp ho with rfl | hmem
        · exact ⟨h0.2.1, h0.2.2.1, h0.2.2.2⟩
        · exact hrec.2 o hmem
  have hmain := key files (runFiles env false st files).1 hmedia hfresh
  exact ⟨hmain.1, fun p => by rw [hmain.1], hmain.2⟩

set_option maxRecDepth 2000 in
/-- Witness for C3: one fresh `a.jpg` under an always-succeeding renderer
with clock 10; the second run leaves the first run's state untouched. -/
theorem runFiles_idempotent_witness :
    (runFiles ⟨id, fun _ _ _ => true, fun _ => 3, 10⟩ false
        (runFiles ⟨id, fun _ _ _ => true, fun _ => 3, 10⟩ false ⟨fun _ => none⟩
          [⟨"/r", "a.jpg", 5⟩]).1 [⟨"/r", "a.jpg", 5⟩]).1
      = (runFiles ⟨id, fun _ _ _ => true, fun _ => 3, 10⟩ false ⟨fun _ => none⟩
          [⟨"/r", "a.jpg", 5⟩]).1 := by
  exact (runFiles_idempotent ⟨id, fun _ _ _ => true, fun _ => 3, 10⟩ ⟨fun _ => none⟩
    [⟨"/r", "a.jpg", 5⟩] (by decide) (fun _ _ _ => rfl) (by decide)).1

/-! ### Scanner characterisation (C6, C10) -/

theorem anyFileNamed_iff (cs : List FsTree) (fname : String) :
    anyFileNamed cs fname = true ↔ FsTree.file fname ∈ cs := by
  induction cs with
  | nil => simp [anyFileNamed]
  | cons c rest ih =>
    cases c with
    | file n =>
      simp only [anyFileNamed, Bool.or_eq_true, decide_eq_true_eq, ih, List.mem_cons]
      constructor
      · rintro (rfl | h)
        · exact Or.inl rfl
        · exact Or.inr h
      · rintro (h | h)
        · cases h; exact Or.inl rfl
        · exact Or.inr h
    | dir n sub =>
      simp only [anyFileNamed, ih, List.mem_cons]
      constructor
      · exact Or.inr
      · rintro (h | h)
        · cases h
        · exact h

theorem anyDirAt_iff (cs : List FsTree) (d : String) (ds : List String) (fname : String) :
    anyDirAt cs d ds fname = true
      ↔ ∃ sub, FsTree.dir d sub ∈ cs ∧ hasFileAt (FsTree.dir d sub) ds fname = true := by
  induction cs with
  | nil => simp [anyDirAt]
  | cons c rest ih =>
    cases c with
    | file n =>
      simp only [anyDirAt, ih, List.mem_cons]
      constructor
      · rintro ⟨sub, hmem, hh⟩
        exact ⟨sub, Or.inr hmem, hh⟩
      · rintro ⟨sub, h | hmem, hh⟩
        · cases h
        · exact ⟨sub, hmem, hh⟩
    | dir n sub0 =>
      simp only [anyDirAt, Bool.or_eq_true, Bool.and_eq_true, decide_eq_true_eq, ih,
        List.mem_cons]
      constructor
      · rintro (⟨rfl, hh⟩ | ⟨sub, hmem, hh⟩)
        · exact ⟨sub0, Or.inl rfl, hh⟩
        · exact ⟨sub, Or.inr hmem, hh⟩
      · rintro ⟨sub, h | hmem, hh⟩
        · cases h; exact Or.inl ⟨rfl, hh⟩
        · exact Or.inr ⟨sub, hmem, hh⟩

theorem walkSubdirs_mem (exclude : List String) (cs : List FsTree) (p : List String) :
    p ∈ walkSubdirs exclude cs
      ↔ ∃ d sub, FsTree.dir d sub ∈ cs ∧ exclude.contains d = false
          ∧ ∃ q ∈ find_media_files exclude (FsTree.dir d sub), p = d :: q := by
  induction cs with
  | nil => simp [walkSubdirs]
  | cons c rest ih =>
    cases c with
    | file n =>
      rw [show walkSubdirs exclude (FsTree.file n :: rest) = walkSubdirs exclude rest from rfl,
        ih]
      constructor
      · rintro ⟨d, sub, hmem, hx, q, hq, rfl⟩
        exact ⟨d, sub, List.mem_cons_of_mem _ hmem, hx, q, hq, rfl⟩
      · rintro ⟨d, sub, hmem, hx, q, hq, rfl⟩
        rcases List.mem_cons.mp hmem with h | h
        · cases h
        · exact ⟨d, sub, h, hx, q, hq, rfl⟩
    | dir n sub0 =>
      by_cases hx0 : exclude.contains n
      · rw [show walkSubdirs exclude (FsTree.dir n sub0 :: rest)
            = (if exclude.contains n then []
                else (find_media_files exclude (.dir n sub0)).map (fun p => n :: p))
              ++ walkSubdirs exclude rest from rfl, if_pos hx0, List.nil_append, ih]
        constructor
        · rintro ⟨d, sub, hmem, hxx, q, hq, rfl⟩
          exact ⟨d, sub, List.mem_cons_of_mem _ hmem, hxx, q, hq, rfl⟩
        · rintro ⟨d, sub, hmem, hxx, q, hq, rfl⟩
          rcases List.mem_cons.mp hmem with h | h
          · obtain ⟨rfl, rfl⟩ : d = n ∧ sub = sub0 := by
              cases h; exact ⟨rfl, rfl⟩
            rw [hx0] at hxx
            cases hxx
          · exact ⟨d, sub, h, hxx, q, hq, rfl⟩
      · rw [show walkSubdirs exclude (FsTree.dir n sub0 :: rest)
            = (if exclude.contains n then []
                else (find_media_files exclude (.dir n sub0)).map (fun p => n :: p))
              ++ walkSubdirs exclude rest from rfl, if_neg hx0, List.mem_append, ih,
          List.mem_map]
        constructor
        · rintro (⟨q, hq, rfl⟩ | ⟨d, sub, hmem, hxx, q, hq, rfl⟩)
          · exact ⟨n, sub0, List.mem_cons_self _ _, Bool.not_eq_true _ ▸ hx0, q, hq, rfl⟩
          · exact ⟨d, sub, List.mem_cons_of_mem _ hmem, hxx, q, hq, rfl⟩
        · rintro ⟨d, sub, hmem, hxx, q, hq, rfl⟩
          rcases List.mem_cons.mp hmem with h | h
          · obtain ⟨rfl, rfl⟩ : d = n ∧ sub = sub0 := by
              cases h; exact ⟨rfl, rfl⟩
            exact Or.inl ⟨q, hq, rfl⟩
          · exact Or.inr ⟨d, sub, h, hxx, q, hq, rfl⟩

theorem find_media_files_sound (exclude : List String) (t : FsTree) (p : List String)
    (h : p ∈ find_media_files exclude t) :
    ∃ ds fname, p = ds ++ [fname]
      ∧ hasFileAt t ds fname = true
      ∧ isMediaExtension (extensionOf fname) = true
      ∧ ∀ d ∈ ds, exclude.contains d = false := by
  match t with
  | .file n => simp [find_media_files] at h
  | .dir nm children =>
    rw [show find_media_files exclude (FsTree.dir nm children)
        = children.filterMap (fun c =>
            match c with
            | .file n => if isMediaExtension (extensionOf n) then some [n] else none
            | .dir _ _ => none)
          ++ walkSubdirs exclude children from rfl, List.mem_append] at h
    rcases h with h | h
    · obtain ⟨c, hc, hg⟩ := List.mem_filterMap.mp h
      match c with
      | .file n =>
        by_cases hm : isMediaExtension (extensionOf n) = true
        · rw [show (match FsTree.file n with
              | FsTree.file n => if isMediaExtension (extensionOf n) then some [n] else none
              | FsTree.dir _ _ => none)
              = if isMediaExtension (extensionOf n) then some [n] else none from rfl,
            if_pos hm] at hg
          obtain rfl : [n] = p := Option.some.inj hg
          refine ⟨[], n, rfl, ?_, hm, by simp⟩
          exact (anyFileNamed_iff children n).mpr hc
        · rw [show (match FsTree.file n with
              | FsTree.file n => if isMediaExtension (extensionOf n) then some [n] else none
              | FsTree.dir _ _ => none)
              = if isMediaExtension (extensionOf n) then some [n] else none from rfl,
            if_neg hm] at hg
          cases hg
      | .dir n2 sub => cases hg
    · obtain ⟨d, sub, hmem, hx, q, hq, rfl⟩ := (walkSubdirs_mem exclude children p).mp h
      obtain ⟨ds, fname, rfl, hhas, hm, hexall⟩ :=
        find_media_files_sound exclude (.dir d sub) q hq
      refine ⟨d :: ds, fname, rfl, ?_, hm, ?_⟩
      · exact (anyDirAt_iff children d ds fname).mpr ⟨sub, hmem, hhas⟩
      · intro x hx2
        rcases List.mem_cons.mp hx2 with rfl | hx3
        · exact hx
        · exact hexall x hx3
termination_by sizeOf t
decreasing_by
  have hlt := List.sizeOf_lt_of_mem hmem
  simp only [FsTree.dir.sizeOf_spec] at hlt ⊢
  omega

theorem find_media_files_complete (exclude : List String) (t : FsTree) (ds : List String)
    (fname : String) (hhas : hasFileAt t ds fname = true)
    (hm : isMediaExtension (extensionOf fname) = true)
    (hex : ∀ d ∈ ds, exclude.contains d = false) :
    ds ++ [fname] ∈ find_media_files exclude t := by
  match t with
  | .file n => simp [hasFileAt] at hhas
  | .dir nm children =>
    match ds with
    | [] =>
      rw [show find_media_files exclude (FsTree.dir nm children)
          = children.filterMap (fun c =>
              match c with
              | .file n => if isMediaExtension (extensionOf n) then some [n] else none
              | .dir _ _ => none)
            ++ walkSubdirs exclude children from rfl, List.mem_append]
      left
      refine List.mem_filterMap.mpr ⟨.file fname, ?_, ?_⟩
      · exact (anyFileNamed_iff children fname).mp hhas
      · rw [show (match FsTree.file fname with
            | FsTree.file n => if isMediaExtension (extensionOf n) then some [n] else none
            | FsTree.dir _ _ => none)
            = if isMediaExtension (extensionOf fname) then some [fname] else none from rfl,
          if_pos hm]
        rfl
    | d :: ds2 =>
      obtain ⟨sub, hmem, hhas2⟩ := (anyDirAt_iff children d ds2 fname).mp hhas
      rw [show find_media_files exclude (FsTree.dir nm children)
          = children.filterMap (fun c =>
              match c with
              | .file n => if isMediaExtension (extensionOf n) then some [n] else none
              | .dir _ _ => none)
            ++ walkSubdirs exclude children from rfl, List.mem_append]
      right
      refine (walkSubdirs_mem exclude children (d :: ds2 ++ [fname])).mpr ?_
      refine ⟨d, sub, hmem, hex d (List.mem_cons_self d ds2), ds2 ++ [fname], ?_, rfl⟩
      exact find_media_files_complete exclude (.dir d sub) ds2 fname hhas2 hm
        (fun x hx => hex x (List.mem_cons_of_mem d hx))
termination_by sizeOf t
decreasing_by
  have hlt := List.sizeOf_lt_of_mem hmem
  simp only [FsTree.dir.sizeOf_spec] at hlt ⊢
  omega

/-- C6: the scanner yields exactly the component paths that end in a file
whose lowercase extension is in the image/video tables and that pass only
through directories whose names are outside the excluded set (so nothing
beneath an excluded directory is ever yielded, even indirectly); the
default excluded set is `.thumbnails`, `@eaDir`, `.DS_Store`, `Thumbs.db`. -/
theorem find_media_files_mem_iff (exclude : List String) (t : FsTree) (p : List String) :
    (p ∈ find_media_files exclude t
      ↔ ∃ ds fname, p = ds ++ [fname]
          ∧ hasFileAt t ds fname = true
          ∧ isMediaExtension (extensionOf fname) = true
          ∧ ∀ d ∈ ds, exclude.contains d = false)
    ∧ DEFAULT_EXCLUDE = [".thumbnails", "@eaDir", ".DS_Store", "Thumbs.db"] := by
  refine ⟨⟨fun h => find_media_files_sound exclude t p h, ?_⟩, rfl⟩
  rintro ⟨ds, fname, rfl, h1, h2, h3⟩
  exact find_media_files_complete exclude t ds fname h1 h2 h3

/-- C10: a path the scanner yielded always carries a media extension, so
the defensive `skipped` branch of `process_file` can never fire on it: its
outcome is `success` or `failed`, never `skipped`. -/
theorem scanner_file_never_skipped (exclude : List String) (t : FsTree) (p : List String)
    (env : RunEnv) (st : CacheState) (force : Bool) (parent : String) (mt : Nat)
    (hp : p ∈ find_media_files exclude t) :
    ((process_file env st ⟨parent, p.getLastD "", mt⟩ force).status = "success"
      ∨ (process_file env st ⟨parent, p.getLastD "", mt⟩ force).status = "failed")
    ∧ (process_file env st ⟨parent, p.getLastD "", mt⟩ force).status ≠ "skipped" := by
  obtain ⟨ds, fname, rfl, hhas, hm, hex⟩ := find_media_files_sound exclude t p hp
  have hmedia : isMediaExtension
      (extensionOf (MediaFile.mk parent ((ds ++ [fname]).getLastD "") mt).name) = true := by
    rw [show (MediaFile.mk parent ((ds ++ [fname]).getLastD "") mt).name
        = (ds ++ [fname]).getLastD "" from rfl]
    rw [show (ds ++ [fname]).getLastD "" = fname from by simp]
    exact hm
  have hcases : (process_file env st ⟨parent, (ds ++ [fname]).getLastD "", mt⟩ force).status
        = "success"
      ∨ (process_file env st ⟨parent, (ds ++ [fname]).getLastD "", mt⟩ force).status
        = "failed" := by
    simp only [process_file, hmedia, Bool.true_eq_false, if_false]
    exact statusExpr_cases _
  refine ⟨hcases, ?_⟩
  rcases hcases with h | h <;> rw [h] <;> decide

set_option maxRecDepth 4000 in
/-- Witness for C10: the scanner yields `a.jpg` from a one-file tree and its
unit of work is not skipped. -/
theorem scanner_file_never_skipped_witness :
    ["a.jpg"] ∈ find_media_files DEFAULT_EXCLUDE (.dir "root" [.file "a.jpg"])
    ∧ (process_file ⟨id, fun _ _ _ => true, fun _ => 0, 10⟩ ⟨fun _ => none⟩
        ⟨"/root", (["a.jpg"] : List String).getLastD "", 5⟩ false).status ≠ "skipped" := by
  have hp : ["a.jpg"] ∈ find_media_files DEFAULT_EXCLUDE (.dir "root" [.file "a.jpg"]) := by
    decide
  exact ⟨hp, (scanner_file_never_skipped DEFAULT_EXCLUDE (.dir "root" [.file "a.jpg"])
    ["a.jpg"] ⟨id, fun _ _ _ => true, fun _ => 0, 10⟩ ⟨fun _ => none⟩ false "/root" 5 hp).2⟩

/-! ### Exit codes and the dry run (C5, C9) -/

/-- C5: the exit code is 1 when the root is missing or not a directory (no
scan output, no effects), 0 on a dry run, and on a normal run 0 exactly
when no processed file's outcome is `failed`, 1 otherwise. -/
theorem main_exit_code (env : RunEnv) (w : WorldModel) (args : ArgsModel) (st : CacheState) :
    (w.rootExists = false ∨ w.rootIsDir = false →
      (main env w args st).1 = 1 ∧ (main env w args st).2.2 = [])
    ∧ (w.rootExists = true → w.rootIsDir = true → args.dryRun = true →
      (main env w args st).1 = 0)
    ∧ (w.rootExists = true → w.rootIsDir = true → args.dryRun = false →
      ((main env w args st).1 = 0
        ↔ (runFiles env args.force st
            ((find_media_files DEFAULT_EXCLUDE w.tree).map (toMediaFile w))).2.countP
              (fun o => o.status = "failed") = 0)
      ∧ ((main env w args st).1 = 0 ∨ (main env w args st).1 = 1)) := by
  refine ⟨?_, ?_, ?_⟩
  · intro h
    by_cases hex : w.rootExists = false
    · constructor <;> simp [main, hex]
    · rcases h with h | h
      · exact absurd h hex
      · constructor <;> simp [main, hex, h]
  · intro hex hdir hdry
    simp [main, hex, hdir, hdry]
  · intro hex hdir hdry
    by_cases hc : (runFiles env args.force st
        ((find_media_files DEFAULT_EXCLUDE w.tree).map (toMediaFile w))).2.countP
          (fun o => o.status = "failed") = 0
    · constructor
      · simp [main, hex, hdir, hdry, hc]
      · left; simp [main, hex, hdir, hdry, hc]
    · constructor
      · simp [main, hex, hdir, hdry, hc]
      · right; simp [main, hex, hdir, hdry, hc]

/-- Witness for C5: a missing root directory exits 1 having done nothing. -/
theorem main_exit_code_witness :
    (main ⟨id, fun _ _ _ => true, fun _ => 0, 10⟩
        ⟨"/gone", false, false, .dir "gone" [], fun _ => 0⟩ ⟨false, false⟩
        ⟨fun _ => none⟩).1 = 1
    ∧ (main ⟨id, fun _ _ _ => true, fun _ => 0, 10⟩
        ⟨"/gone", false, false, .dir "gone" [], fun _ => 0⟩ ⟨false, false⟩
        ⟨fun _ => none⟩).2.2 = [] := by
  exact (main_exit_code ⟨id, fun _ _ _ => true, fun _ => 0, 10⟩
    ⟨"/gone", false, false, .dir "gone" [], fun _ => 0⟩ ⟨false, false⟩
    ⟨fun _ => none⟩).1 (Or.inl rfl)

/-- C9: a dry run exits 0, prints one `Would process:` line per candidate,
leaves every cache entry untouched, and logs no mkdir, no staleness check
and no render invocation — its whole effect trace is the print lines. -/
theorem main_dry_run (env : RunEnv) (w : WorldModel) (st : CacheState) (force : Bool)
    (hex : w.rootExists = true) (hdir : w.rootIsDir = true) :
    (main env w ⟨force, true⟩ st).1 = 0
    ∧ (main env w ⟨force, true⟩ st).2.1 = st
    ∧ (main env w ⟨force, true⟩ st).2.2
        = (find_media_files DEFAULT_EXCLUDE w.tree).map
            (fun p => Effect.printLine ("Would process: " ++ joinPath w.rootPath p))
    ∧ ∀ e ∈ (main env w ⟨force, true⟩ st).2.2,
        isRenderEff e = false
        ∧ (∀ q, e ≠ Effect.mkdirEff q)
        ∧ (∀ s o, e ≠ Effect.staleCheck s o) := by
  have hm : main env w ⟨force, true⟩ st
      = (0, st, (find_media_files DEFAULT_EXCLUDE w.tree).map
          (fun p => Effect.printLine ("Would process: " ++ joinPath w.rootPath p))) := by
    simp [main, hex, hdir]
  refine ⟨by rw [hm], by rw [hm], by rw [hm], ?_⟩
  intro e he
  rw [hm] at he
  obtain ⟨p, hp, rfl⟩ := List.mem_map.mp he
  refine ⟨rfl, ?_, ?_⟩
  · intro q h
    simp at h
  · intro s o h
    simp at h

/-- Witness for C9: a one-image tree under a dry run prints its candidate,
exits 0 and touches nothing. -/
theorem main_dry_run_witness :
    (main ⟨id, fun _ _ _ => true, fun _ => 0, 10⟩
        ⟨"/root", true, true, .dir "root" [.file "a.jpg"], fun _ => 5⟩ ⟨false, true⟩
        ⟨fun _ => none⟩).1 = 0
    ∧ (main ⟨id, fun _ _ _ => true, fun _ => 0, 10⟩
        ⟨"/root", true, true, .dir "root" [.file "a.jpg"], fun _ => 5⟩ ⟨false, true⟩
        ⟨fun _ => none⟩).2.1 = ⟨fun _ => none⟩ := by
  have h := main_dry_run ⟨id, fun _ _ _ => true, fun _ => 0, 10⟩
    ⟨"/root", true, true, .dir "root" [.file "a.jpg"], fun _ => 5⟩ ⟨fun _ => none⟩ false
    rfl rfl
  exact ⟨h.1, h.2.1⟩

/-! ### Renderer boundary (C7) -/

/-- C7: both rendering functions are total boolean-valued maps of their
collaborators' behaviour: every raised exception — decode error,
unsupported format, write error, timeout, tool-not-found, anything else —
is absorbed into the result `false`, and `true` arises exactly from a
completed body (image) or a zero return code (video); no exception crosses
their boundary to the caller. -/
theorem render_never_raises (lib : ImageLibEnv) (vid : VideoToolEnv) :
    (∀ e : PyExc, generate_image_thumbnail_body lib = Except.error e →
      generate_image_thumbnail lib = false)
    ∧ (generate_image_thumbnail lib = true
        ↔ generate_image_thumbnail_body lib = Except.ok ())
    ∧ (∀ e : PyExc, vid.runProc = Except.error e → generate_video_thumbnail vid = false)
    ∧ (generate_video_thumbnail vid = true
        ↔ ∃ r, vid.runProc = Except.ok r ∧ r.returncode = 0) := by
  refine ⟨?_, ?_, ?_, ?_⟩
  · intro e he
    simp [generate_image_thumbnail, he]
  · cases hb : generate_image_thumbnail_body lib with
    | ok u => cases u; simp [generate_image_thumbnail, hb]
    | error e => simp [generate_image_thumbnail, hb]
  · intro e he
    cases e <;> simp [generate_video_thumbnail, he]
  · cases hr : vid.runProc with
    | ok r =>
      simp only [generate_video_thumbnail, hr, decide_eq_true_eq]
      constructor
      · intro h; exact ⟨r, rfl, h⟩
      · rintro ⟨r2, hr2, hc⟩
        cases Except.ok.inj hr2
        exact hc
    | error e =>
      cases e <;>
        · simp only [generate_video_thumbnail, hr]
          constructor
          · intro h; exact absurd h (by decide)
          · rintro ⟨r2, hr2, -⟩; cases hr2

/-- Witness for C7: a decode failure and a missing tool both come back as
`false`, not as exceptions. -/
theorem render_never_raises_witness :
    generate_image_thumbnail ⟨Except.error (PyExc.decodeError "bad header"),
      Except.ok (), Except.ok (), Except.ok ()⟩ = false
    ∧ generate_video_thumbnail ⟨Except.error PyExc.fileNotFound⟩ = false := by
  refine ⟨?_, ?_⟩
  · exact (render_never_raises ⟨Except.error (PyExc.decodeError "bad header"),
      Except.ok (), Except.ok (), Except.ok ()⟩ ⟨Except.error PyExc.fileNotFound⟩).1
      (PyExc.decodeError "bad header") rfl
  · exact (render_never_raises ⟨Except.error (PyExc.decodeError "bad header"),
      Except.ok (), Except.ok (), Except.ok ()⟩ ⟨Except.error PyExc.fileNotFound⟩).2.2.1
      PyExc.fileNotFound rfl

/-! ### The uncaught per-file filesystem error (C8) -/

set_option maxRecDepth 4000 in
/-- C8 is refuted by the code: `process_file` has no exception handler, so
a permission-denied mkdir while laying out `/r/.thumbnails` makes the unit
of work for `/r/a.jpg` evaluate to the raised exception — not to any
`(status, details)` outcome record — and `main`'s collection loop, which
re-raises the first stored exception, aborts the aggregation of the whole
run even though another file's unit of work had succeeded. -/
theorem process_file_exc_escapes :
    process_file_exc
        ⟨fun _ => .error (.other "permission denied"), fun _ => .ok 0, fun _ => true,
          fun _ _ _ => true, id⟩
        ⟨"/r", "a.jpg", 5⟩ false
      = .error (.other "permission denied")
    ∧ (∀ status details : String,
        process_file_exc
            ⟨fun _ => .error (.other "permission denied"), fun _ => .ok 0, fun _ => true,
              fun _ _ _ => true, id⟩
            ⟨"/r", "a.jpg", 5⟩ false
          ≠ .ok (status, details))
    ∧ collectResults
        [process_file_exc
            ⟨fun _ => .error (.other "permission denied"), fun _ => .ok 0, fun _ => true,
              fun _ _ _ => true, id⟩
            ⟨"/r", "a.jpg", 5⟩ false,
          .ok ("success", "normal:ok,large:ok")]
      = .error (.other "permission denied") := by
  have h : process_file_exc
      ⟨fun _ => .error (.other "permission denied"), fun _ => .ok 0, fun _ => true,
        fun _ _ _ => true, id⟩
      ⟨"/r", "a.jpg", 5⟩ false
      = .error (.other "permission denied") := rfl
  refine ⟨h, ?_, ?_⟩
  · intro status details hcon
    rw [h] at hcon
    cases hcon
  · rw [show collectResults
        [process_file_exc
            ⟨fun _ => .error (.other "permission denied"), fun _ => .ok 0, fun _ => true,
              fun _ _ _ => true, id⟩
            ⟨"/r", "a.jpg", 5⟩ false,
          .ok ("success", "normal:ok,large:ok")]
        = collectResults [.error (.other "permission denied"),
            .ok ("success", "normal:ok,large:ok")] from by rw [h]]
    rfl

end ThumbGen

